import Mathlib

/-!
Shallow embedding of the riverrun uploader's admission-control engine
(`uploader/uploader.go`) and proofs about it.

The ledger database (`user_stats` table keyed by the identity fingerprint)
is modelled as a function `String → Option UserData`; SQL `UPDATE` is a
pointwise update that is a no-op on an absent key, SQL `INSERT` adds the
key, SQL `DELETE` removes it.  External effects of `processUpload`
(`os.Stat`, `ffprobe`, `os.Rename`, `time.Now`, and the result of
`fingerprintSSHKey`, which lives outside this package) are supplied as
inputs, and the file-system and audit actions the code performs are
recorded in an event trace.
-/

namespace Riverrun

/-- Uploader section of the TOML configuration (struct `Config` in
`uploader.go`).  Only the fields the admission engine reads are kept. -/
structure Config where
  maxUserUploadSize : Nat
  acceptedUploadFileTypes : List String
  maxUserAirtime : Nat
  storageDirectory : String
  strikesBeforeTimeOut : Nat
  timeOutsBeforeBan : Nat
deriving Repr, DecidableEq

/-- One row of the `user_stats` table (struct `UserData` in `uploader.go`).
`lastUpload` is a timestamp, modelled as a natural number. -/
structure UserData where
  strikes : Nat
  timeouts : Nat
  dailyUpload : Nat
  dailyAirtime : Nat
  lastUpload : Nat
deriving Repr, DecidableEq

/-- The default row inserted by `getUserData` on first sight
(`INSERT INTO user_stats (user) VALUES (?)`: every counter defaults to 0). -/
def UserData.init : UserData := ⟨0, 0, 0, 0, 0⟩

/-- The persisted ledger: fingerprint to row, `none` when no row exists. -/
def Ledger : Type := String → Option UserData

/-- Observable actions `processUpload` performs, in execution order. -/
inductive Event where
  | logged (user action : String)
  | statFile (path : String)
  | probedDuration (path : String)
  | renamed (src dst : String)
  | removed (path : String)
deriving Repr, DecidableEq

/-- The mutable state threaded through one evaluation: the ledger database,
the content of the `access.log` file, and the trace of observable events. -/
structure ProcState where
  db : Ledger
  auditFile : String
  events : List Event

/-- ASCII lower-casing, used to model `strings.EqualFold` on the ASCII
extensions the configuration holds. -/
def asciiLower (c : Char) : Char :=
  if 65 ≤ c.toNat ∧ c.toNat ≤ 90 then Char.ofNat (c.toNat + 32) else c

/-- `strings.EqualFold` restricted to ASCII folding. -/
def strEqFold (a b : String) : Bool :=
  a.data.map asciiLower = b.data.map asciiLower

/-- `filepath.Ext`: the suffix of the last path element starting at its
final dot, or the empty string when that element has no dot. -/
def pathExt (path : String) : String :=
  let base := path.data.reverse.takeWhile (fun c => c ≠ '/')
  let afterDot := base.takeWhile (fun c => c ≠ '.')
  if afterDot.length = base.length then ""
  else String.mk ('.' :: afterDot.reverse)

/-- `filepath.Base`: the last element of the path after trailing slashes
are removed; `"."` for the empty path, `"/"` for all-slash paths. -/
def pathBase (path : String) : String :=
  let r := path.data.reverse.dropWhile (fun c => c = '/')
  if r.isEmpty then (if path.data.isEmpty then "." else "/")
  else String.mk (r.takeWhile (fun c => c ≠ '/')).reverse

/-- `filepath.Join` of a directory and a name (path cleaning omitted). -/
def pathJoin (dir name : String) : String := dir ++ "/" ++ name

/-- `checkFileType` from `uploader.go`: the file extension, compared
case-insensitively, must be one of `AcceptedUploadFileTypes`. -/
def checkFileType (cfg : Config) (fileName : String) : Bool :=
  cfg.acceptedUploadFileTypes.any (fun allowedType => strEqFold (pathExt fileName) allowedType)

/-- `calculateFileSize` from `uploader.go`, applied to the byte size that
`os.Stat` reports: whole megabytes by integer division. -/
def calculateFileSize (bytes : Nat) : Nat := bytes / (1024 * 1024)

/-- The assignment `fmt.Sscanf(out.String(), "%f", &duration)` performed
by `calculateAudioDuration`, where `duration` is declared as an `int`:
the `%f` verb does not apply to an integer argument, so `Sscanf` stops
with a bad-verb error — which the caller discards — and assigns nothing;
`duration` keeps the value it held before the call. -/
def sscanfFloatIntoInt (ffprobeOut : String) (duration : Nat) : Nat :=
  duration

/-- `calculateAudioDuration` from `uploader.go`, lines 100-110, applied to
the outcome of the `ffprobe` invocation (`none` when `cmd.Run()` errors,
`some out` with the printed duration text when it succeeds): on success it
initialises `duration := 0`, runs `Sscanf` with the `%f` verb into that
`int` — which fails and leaves 0 — and returns `duration`.  A successful
probe therefore always yields 0 seconds, whatever `ffprobe` printed. -/
def calculateAudioDuration (ffprobeOutput : Option String) : Option Nat :=
  match ffprobeOutput with
  | none => none
  | some out => some (sscanfFloatIntoInt out 0)

/-- The text of one audit line
(`fmt.Sprintf("%s - %s: %s\n", time, user, action)`). -/
def formatLogEntry (now : Nat) (user action : String) : String :=
  toString now ++ " - " ++ user ++ ": " ++ action ++ "\n"

/-- The new content of the `access.log` file after `logAction` runs.
`logAction` calls `ioutil.WriteFile(logFile, entry, os.ModeAppend)`;
`WriteFile` opens with `O_TRUNC`, so the previous content is discarded
and the file holds exactly the one new entry (`os.ModeAppend` is the
permission argument, not an open flag). -/
def logActionFile (now : Nat) (user action : String) (prevContent : String) : String :=
  formatLogEntry now user action

/-- `logAction` as a state transformer: rewrites the audit file per
`logActionFile` and records the action in the event trace. -/
def logAction (now : Nat) (user action : String) (s : ProcState) : ProcState :=
  { s with auditFile := logActionFile now user action s.auditFile,
           events := s.events ++ [Event.logged user action] }

/-- `getUserData`: select the row; on `sql.ErrNoRows` insert a default row
and return zeroed `UserData`.  Returns the loaded row and the database
after the possible insert. -/
def getUserData (db : Ledger) (user : String) : UserData × Ledger :=
  match db user with
  | some u => (u, db)
  | none => (UserData.init, fun x => if x = user then some UserData.init else db x)

/-- `updateUserData`: SQL `UPDATE ... WHERE user = ?`.  It overwrites the
row when it exists and matches zero rows (changing nothing, in particular
not inserting) when it does not. -/
def updateUserData (db : Ledger) (user : String) (u : UserData) : Ledger :=
  fun x => if x = user then (db x).map (fun _ => u) else db x

/-- `banUser`: delete the identity's row, then log `"User banned"`. -/
def banUser (now : Nat) (user : String) (s : ProcState) : ProcState :=
  logAction now user ("User banned")
    { s with db := fun x => if x = user then none else s.db x }

/-- `timeOutUser`: increment `timeouts`, reset `strikes` to 0; if the new
`timeouts` has reached `TimeOutsBeforeBan`, ban (and return without a
ledger write of its own); otherwise log `"User timed out"` and persist.
The updated in-memory row is returned because the Go code mutates it
through a pointer the caller keeps using. -/
def timeOutUser (cfg : Config) (now : Nat) (user : String) (u : UserData)
    (s : ProcState) : UserData × ProcState :=
  let u' := { u with timeouts := u.timeouts + 1, strikes := 0 }
  if cfg.timeOutsBeforeBan ≤ u'.timeouts then
    (u', banUser now user s)
  else
    let s' := logAction now user ("User timed out") s
    (u', { s' with db := updateUserData s'.db user u' })

/-- The block `processUpload` repeats on each of its three rejection paths:
increment `strikes`, log the reason, invoke `timeOutUser` when the strike
count has reached `StrikesBeforeTimeOut`, then persist through
`updateUserData`. -/
def strikeReject (cfg : Config) (now : Nat) (fingerprint reason : String)
    (u : UserData) (s : ProcState) : ProcState :=
  let u' := { u with strikes := u.strikes + 1 }
  let s' := logAction now fingerprint reason s
  let p :=
    if cfg.strikesBeforeTimeOut ≤ u'.strikes then
      timeOutUser cfg now fingerprint u' s'
    else (u', s')
  { p.2 with db := updateUserData p.2.db fingerprint p.1 }

/-- The inputs of one evaluation: the (externally computed) result of
`fingerprintSSHKey`, the candidate path, the results `os.Stat` and
`ffprobe` would return for it (`none` = the call errors), whether
`os.Rename` into storage succeeds, and the current time. -/
structure UploadInput where
  fingerprint : Option String
  filePath : String
  statSize : Option Nat
  probeDuration : Option Nat
  moveOk : Bool
  now : Nat

/-- The outcome of one `processUpload` evaluation (each early `return`
of the Go function). -/
inductive Outcome where
  | credentialUnreadable
  | rejectedUnsupportedType
  | sizeError
  | rejectedSizeQuota
  | durationError
  | rejectedAirtimeQuota
  | moveFailed
  | admitted
deriving Repr, DecidableEq

/-- `processUpload` from `uploader.go`, lines 179-246, as a pure function
of its inputs and the evaluation state. -/
def processUpload (cfg : Config) (inp : UploadInput) (s : ProcState) :
    Outcome × ProcState :=
  match inp.fingerprint with
  | none => (Outcome.credentialUnreadable, s)
  | some fingerprint =>
    let g := getUserData s.db fingerprint
    let userData := g.1
    let s1 := { s with db := g.2 }
    if checkFileType cfg inp.filePath = false then
      (Outcome.rejectedUnsupportedType,
        strikeReject cfg inp.now fingerprint ("Attempted to upload unsupported file type") userData s1)
    else
      let s2 := { s1 with events := s1.events ++ [Event.statFile inp.filePath] }
      match inp.statSize with
      | none => (Outcome.sizeError, s2)
      | some bytes =>
        let fileSize := calculateFileSize bytes
        if cfg.maxUserUploadSize < userData.dailyUpload + fileSize then
          (Outcome.rejectedSizeQuota,
            strikeReject cfg inp.now fingerprint ("Exceeded daily upload size limit") userData s2)
        else
          let s3 := { s2 with events := s2.events ++ [Event.probedDuration inp.filePath] }
          match inp.probeDuration with
          | none => (Outcome.durationError, s3)
          | some duration =>
            if cfg.maxUserAirtime < userData.dailyAirtime + duration then
              (Outcome.rejectedAirtimeQuota,
                strikeReject cfg inp.now fingerprint ("Exceeded daily airtime limit") userData s3)
            else
              let userData' := { userData with
                dailyUpload := userData.dailyUpload + fileSize,
                dailyAirtime := userData.dailyAirtime + duration,
                lastUpload := inp.now }
              if inp.moveOk = false then
                (Outcome.moveFailed, s3)
              else
                let dst := pathJoin cfg.storageDirectory (pathBase inp.filePath)
                let s4 := { s3 with events := s3.events ++ [Event.renamed inp.filePath dst] }
                let s5 := logAction inp.now fingerprint ("File uploaded successfully") s4
                (Outcome.admitted, { s5 with db := updateUserData s5.db fingerprint userData' })

/-- `strings.Contains`: `needle` occurs as a contiguous sublist of `hay`. -/
def containsSub (hay needle : List Char) : Bool :=
  match hay with
  | [] => needle.isEmpty
  | c :: rest => needle.isPrefixOf (c :: rest) || containsSub rest needle

/-- The suffix of `hay` following the first occurrence of `needle`, or
`none` when `needle` does not occur. -/
def dropThrough (needle hay : List Char) : Option (List Char) :=
  match hay with
  | [] => if needle.isEmpty then some [] else none
  | c :: rest =>
    if needle.isPrefixOf (c :: rest) then some ((c :: rest).drop needle.length)
    else dropThrough needle rest

/-- The single-quote character, `'` (code point 39). -/
def quoteChar : Char := Char.ofNat 39

/-- `parseSSHLogLine`: the regular expression
`Accepted publickey for \S+.*SHA256:(\S+).*scp:\s+'([^']+)'` as a
pattern-matching function returning the captured (fingerprint, path). -/
def parseSSHLogLine (line : String) : Option (String × String) :=
  match dropThrough ("Accepted publickey for ").data line.data with
  | none => none
  | some r1 =>
    if (r1.takeWhile (fun c => !c.isWhitespace)).isEmpty then none
    else
      match dropThrough ("SHA256:").data r1 with
      | none => none
      | some r2 =>
        let fp := r2.takeWhile (fun c => !c.isWhitespace)
        if fp.isEmpty then none
        else
          match dropThrough ("scp:").data (r2.drop fp.length) with
          | none => none
          | some r3 =>
            let ws := r3.takeWhile (fun c => c.isWhitespace)
            if ws.isEmpty then none
            else
              match r3.drop ws.length with
              | [] => none
              | q :: r5 =>
                if q = quoteChar then
                  let captured := r5.takeWhile (fun c => c ≠ quoteChar)
                  if captured.isEmpty then none
                  else if (r5.drop captured.length).isEmpty then none
                  else some (String.mk fp, String.mk captured)
                else none

/-- The external world as `processUpload` observes it: fingerprint
resolution (`fingerprintSSHKey`, defined outside this package), `os.Stat`
sizes, `ffprobe` durations, `os.Rename` success, and the clock. -/
structure Env where
  resolveFingerprint : String → Option String
  statSize : String → Option Nat
  probeDuration : String → Option Nat
  moveOk : String → Bool
  now : Nat

/-- One call `processUpload(sshKeyPath, filePath)` with its external
effects answered by `env`. -/
def runUpload (cfg : Config) (env : Env) (sshKeyPath filePath : String)
    (s : ProcState) : Outcome × ProcState :=
  processUpload cfg
    ⟨env.resolveFingerprint sshKeyPath, filePath, env.statSize filePath,
     env.probeDuration filePath, env.moveOk filePath, env.now⟩ s

/-- `monitorSSHLogs` from `uploader.go`, lines 152-177: a `bufio.Scanner`
pass over the log file.  `lines` is the content of the file at the moment
it is opened; the loop body filters for lines containing both `"scp"` and
`"Accepted publickey"`, parses them, and calls `processUpload` on each
match.  When `scanner.Scan()` hits end-of-file the loop exits and the
function returns, so the result is a fold over exactly those lines. -/
def monitorSSHLogs (cfg : Config) (env : Env) (sshKeyDir : String)
    (lines : List String) (s : ProcState) : ProcState :=
  lines.foldl (fun st line =>
    if containsSub line.data ("scp").data &&
        containsSub line.data ("Accepted publickey").data then
      match parseSSHLogLine line with
      | some fpPath => (runUpload cfg env (pathJoin sshKeyDir fpPath.1) fpPath.2 st).2
      | none => st
    else st) s

/-- Events that probe the candidate file (`os.Stat` or `ffprobe`). -/
def isProbeEvent : Event → Bool
  | Event.statFile _ => true
  | Event.probedDuration _ => true
  | _ => false

/-- Events that probe the candidate's media duration (`ffprobe`). -/
def isDurationProbe : Event → Bool
  | Event.probedDuration _ => true
  | _ => false

/-- Events that touch the candidate file itself (move or delete). -/
def isFileEvent : Event → Bool
  | Event.renamed _ _ => true
  | Event.removed _ => true
  | _ => false

/-! Concrete instances used by the scenario theorem and the witnesses. -/

/-- 100 MB size quota, 1000 s airtime quota, `.mp3` accepted, 3 strikes
to a timeout, 2 timeouts to a ban. -/
def cfg8 : Config := ⟨100, [".mp3"], 1000, "/storage", 3, 2⟩

/-- A ledger holding one identity `fp8` with all counters zero. -/
def db8 : Ledger := fun x => if x = "fp8" then some ⟨0, 0, 0, 0, 0⟩ else none

/-- Starting state for the scenario runs. -/
def st8 : ProcState := ⟨db8, "", []⟩

/-- Scenario A as the program runs it: a 40 MiB accepted-type file whose
media duration is 120 s, arriving at time 777.  `ffprobe` succeeds and
prints the duration, and the charged duration is whatever
`calculateAudioDuration` makes of that output. -/
def inp8real : UploadInput :=
  ⟨some "fp8", "/inbound/song.mp3", some (40 * 1024 * 1024),
   calculateAudioDuration (some ("120.000000")), true, 777⟩

/-- A 40 MiB accepted-type candidate whose move into storage fails. -/
def inp5 : UploadInput :=
  ⟨some "fp8", "/inbound/song.mp3", some (40 * 1024 * 1024), some 120, false, 777⟩

/-- 2 strikes to a timeout, 5 timeouts to a ban. -/
def cfgW : Config := ⟨100, [".mp3"], 1000, "/storage", 2, 5⟩

/-- An identity one strike short of the timeout threshold of `cfgW`. -/
def rowW : UserData := ⟨1, 0, 0, 0, 0⟩

/-- Ledger holding `fpW` at one strike. -/
def dbW : Ledger := fun x => if x = "fpW" then some rowW else none

/-- Starting state over `dbW`. -/
def stW : ProcState := ⟨dbW, "", []⟩

/-- An unsupported-type candidate from `fpW`. -/
def inpW : UploadInput := ⟨some "fpW", "/inbound/evil.bin", some 0, some 0, true, 5⟩

/-- Ledger holding a fresh identity `fpW` with zero counters. -/
def db4 : Ledger := fun x => if x = "fpW" then some ⟨0, 0, 0, 0, 0⟩ else none

/-- Starting state over `db4`. -/
def st4 : ProcState := ⟨db4, "", []⟩

/-- An unsupported-type candidate from the fresh identity. -/
def inp4 : UploadInput := ⟨some "fpW", "/inbound/evil.bin", some 0, some 0, true, 5⟩

/-- A 200 MiB accepted-type candidate: exceeds the 100 MB size quota. -/
def inp4b : UploadInput :=
  ⟨some "fpW", "/inbound/big.mp3", some (200 * 1024 * 1024), some 10, true, 5⟩

/-- A 512-byte accepted-type candidate: under one mebibyte. -/
def inp10 : UploadInput :=
  ⟨some "fp8", "/inbound/tiny.mp3", some 512, some 3, true, 9⟩

/-! ## Helper lemmas -/

/-- Reading a key from an updated ledger: the SQL UPDATE only rewrites an
existing row at its own key and never inserts. -/
lemma updateUserData_some {db : Ledger} {user : String} {u : UserData}
    {x : String} {u' : UserData} (h : updateUserData db user u x = some u') :
    (x = user ∧ u' = u) ∨ (x ≠ user ∧ db x = some u') := by
  simp only [updateUserData] at h
  by_cases hx : x = user
  · rw [if_pos hx] at h
    cases hdbx : db x with
    | none => rw [hdbx] at h; simp at h
    | some a =>
      rw [hdbx] at h
      simp only [Option.map_some'] at h
      exact Or.inl ⟨hx, (Option.some.inj h).symm⟩
  · rw [if_neg hx] at h
    exact Or.inr ⟨hx, h⟩

/-- Reading a key from the ledger `getUserData` returns: either the old
row, or the freshly inserted default row. -/
lemma getUserData_snd_some {db : Ledger} {user x : String} {u' : UserData}
    (h : (getUserData db user).2 x = some u') :
    db x = some u' ∨ (x = user ∧ u' = UserData.init) := by
  unfold getUserData at h
  cases hdb : db user with
  | some u0 => rw [hdb] at h; exact Or.inl h
  | none =>
    rw [hdb] at h
    simp only at h
    by_cases hx : x = user
    · right
      rw [if_pos hx] at h
      exact ⟨hx, (Option.some.inj h).symm⟩
    · left
      rwa [if_neg hx] at h

/-- `getUserData` with an existing row returns it, database untouched. -/
lemma getUserData_of_some {db : Ledger} {user : String} {u0 : UserData}
    (h : db user = some u0) : getUserData db user = (u0, db) := by
  unfold getUserData; rw [h]

/-- `getUserData` on first sight inserts and returns the default row. -/
lemma getUserData_of_none {db : Ledger} {user : String}
    (h : db user = none) :
    getUserData db user =
      (UserData.init, fun x => if x = user then some UserData.init else db x) := by
  unfold getUserData; rw [h]

/-- What `strikeReject` leaves in the ledger at key `x`: other identities
are untouched; the struck identity either carries one more strike (below
the threshold), or has been timed out (strikes reset to 0, one more
timeout, below the ban threshold); when the ban threshold is reached the
row is deleted, so a `some` result is impossible in that case. -/
lemma strikeReject_db_some {cfg : Config} {now : Nat} {f r : String}
    {u : UserData} {s : ProcState} {x : String} {u' : UserData}
    (h : (strikeReject cfg now f r u s).db x = some u') :
    (x ≠ f ∧ s.db x = some u') ∨
    (x = f ∧
      ((u' = { u with strikes := u.strikes + 1 } ∧
          u.strikes + 1 < cfg.strikesBeforeTimeOut) ∨
       (u' = ⟨0, u.timeouts + 1, u.dailyUpload, u.dailyAirtime, u.lastUpload⟩ ∧
          cfg.strikesBeforeTimeOut ≤ u.strikes + 1 ∧
          u.timeouts + 1 < cfg.timeOutsBeforeBan))) := by
  simp only [strikeReject, timeOutUser, banUser, logAction] at h
  by_cases h1 : cfg.strikesBeforeTimeOut ≤ u.strikes + 1
  · simp only [h1, if_true] at h
    by_cases h2 : cfg.timeOutsBeforeBan ≤ u.timeouts + 1
    · simp only [h2, if_true] at h
      rcases updateUserData_some h with ⟨hx, -⟩ | ⟨hx, h⟩
      · subst hx
        simp [updateUserData] at h
      · rw [if_neg hx] at h
        exact Or.inl ⟨hx, h⟩
    · simp only [h2, if_false] at h
      rcases updateUserData_some h with ⟨hx, hu⟩ | ⟨hx, h⟩
      · exact Or.inr ⟨hx, Or.inr ⟨hu, h1, lt_of_not_le h2⟩⟩
      · rcases updateUserData_some h with ⟨hx', -⟩ | ⟨-, h⟩
        · exact absurd hx' hx
        · exact Or.inl ⟨hx, h⟩
  · simp only [h1, if_false] at h
    rcases updateUserData_some h with ⟨hx, hu⟩ | ⟨hx, h⟩
    · exact Or.inr ⟨hx, Or.inl ⟨hu, lt_of_not_le h1⟩⟩
    · exact Or.inl ⟨hx, h⟩
/-- `strikeReject` appends only audit-log events to the trace. -/
lemma strikeReject_events (cfg : Config) (now : Nat) (f r : String)
    (u : UserData) (s : ProcState) :
    ∃ extra : List Event, (∀ e ∈ extra, ∃ usr act, e = Event.logged usr act) ∧
      (strikeReject cfg now f r u s).events = s.events ++ extra := by
  simp only [strikeReject, timeOutUser, banUser, logAction]
  by_cases h1 : cfg.strikesBeforeTimeOut ≤ u.strikes + 1
  · by_cases h2 : cfg.timeOutsBeforeBan ≤ u.timeouts + 1
    · refine ⟨[Event.logged f r, Event.logged f ("User banned")], ?_, ?_⟩
      · intro e he
        simp only [List.mem_cons, List.not_mem_nil, or_false] at he
        rcases he with rfl | rfl
        · exact ⟨f, r, rfl⟩
        · exact ⟨f, ("User banned"), rfl⟩
      · simp [h1, h2]
    · refine ⟨[Event.logged f r, Event.logged f ("User timed out")], ?_, ?_⟩
      · intro e he
        simp only [List.mem_cons, List.not_mem_nil, or_false] at he
        rcases he with rfl | rfl
        · exact ⟨f, r, rfl⟩
        · exact ⟨f, ("User timed out"), rfl⟩
      · simp [h1, h2]
  · refine ⟨[Event.logged f r], ?_, ?_⟩
    · intro e he
      simp only [List.mem_cons, List.not_mem_nil, or_false] at he
      rcases he with rfl
      exact ⟨f, r, rfl⟩
    · simp [h1]

/-- Appending audit-log events does not change the result of filtering
the trace by a predicate that ignores logging. -/
lemma filter_append_logged {p : Event → Bool}
    (hp : ∀ usr act, p (Event.logged usr act) = false)
    (l extra : List Event)
    (hex : ∀ e ∈ extra, ∃ usr act, e = Event.logged usr act) :
    (l ++ extra).filter p = l.filter p := by
  rw [List.filter_append]
  have hnil : extra.filter p = [] := by
    rw [List.filter_eq_nil_iff]
    intro e he
    obtain ⟨usr, act, rfl⟩ := hex e he
    simp [hp usr act]
  rw [hnil, List.append_nil]
/-- The row `getUserData` loads is the stored row or the default row. -/
lemma getUserData_fst_cases (db : Ledger) (f : String) :
    db f = some (getUserData db f).1 ∨ (getUserData db f).1 = UserData.init := by
  unfold getUserData
  cases db f <;> simp

/-! ## Claims -/

/-- Claim C1: after any completed evaluation, every persisted ledger row
has `strikes` in `[0, strikeThreshold)` — an incremented strike count that
reaches the threshold is reset to 0 (by the timeout transition) before the
row is persisted.  Stated as preservation: when `strikeThreshold ≥ 1` and
every row satisfies the bound before the evaluation, every row satisfies
it afterwards. -/
theorem processUpload_strikes_invariant (cfg : Config) (inp : UploadInput)
    (s : ProcState) (hth : 1 ≤ cfg.strikesBeforeTimeOut)
    (hpre : ∀ x u, s.db x = some u → u.strikes < cfg.strikesBeforeTimeOut) :
    ∀ x u', (processUpload cfg inp s).2.db x = some u' →
      u'.strikes < cfg.strikesBeforeTimeOut := by
  intro x u' hpost
  unfold processUpload at hpost
  split at hpost
  · exact hpre x u' hpost
  · rename_i f hf
    have hg : ∀ y w, (getUserData s.db f).2 y = some w →
        w.strikes < cfg.strikesBeforeTimeOut := by
      intro y w hw
      rcases getUserData_snd_some hw with hold | ⟨-, rfl⟩
      · exact hpre y w hold
      · exact hth
    have hu0 : (getUserData s.db f).1.strikes < cfg.strikesBeforeTimeOut := by
      rcases getUserData_fst_cases s.db f with h | h
      · exact hpre f _ h
      · rw [h]; exact hth
    simp only [] at hpost
    split at hpost
    · -- unsupported type
      rcases strikeReject_db_some hpost with ⟨hx, hold⟩ | ⟨hx, hcase⟩
      · exact hg x u' hold
      · rcases hcase with ⟨rfl, hlt⟩ | ⟨rfl, -, -⟩
        · exact hlt
        · exact hth
    · split at hpost
      · -- stat error
        exact hg x u' hpost
      · split at hpost
        · -- size quota
          rcases strikeReject_db_some hpost with ⟨hx, hold⟩ | ⟨hx, hcase⟩
          · exact hg x u' hold
          · rcases hcase with ⟨rfl, hlt⟩ | ⟨rfl, -, -⟩
            · exact hlt
            · exact hth
        · split at hpost
          · -- probe error
            exact hg x u' hpost
          · split at hpost
            · -- airtime quota
              rcases strikeReject_db_some hpost with ⟨hx, hold⟩ | ⟨hx, hcase⟩
              · exact hg x u' hold
              · rcases hcase with ⟨rfl, hlt⟩ | ⟨rfl, -, -⟩
                · exact hlt
                · exact hth
            · split at hpost
              · -- move failed
                exact hg x u' hpost
              · -- admitted
                rcases updateUserData_some hpost with ⟨rfl, rfl⟩ | ⟨hx, hold⟩
                · exact hu0
                · exact hg x u' hold
/-- Claim C2: while an identity's ledger row exists, `timeouts` is in
`[0, timeoutThreshold)`; an evaluation whose timeout increment reaches the
threshold deletes the row within that same operation, and the evaluation's
trailing ledger write (a SQL UPDATE) does not re-create it.  Stated as
preservation of the bound across one evaluation. -/
theorem processUpload_timeouts_invariant (cfg : Config) (inp : UploadInput)
    (s : ProcState) (htb : 1 ≤ cfg.timeOutsBeforeBan)
    (hpre : ∀ x u, s.db x = some u → u.timeouts < cfg.timeOutsBeforeBan) :
    ∀ x u', (processUpload cfg inp s).2.db x = some u' →
      u'.timeouts < cfg.timeOutsBeforeBan := by
  intro x u' hpost
  unfold processUpload at hpost
  split at hpost
  · exact hpre x u' hpost
  · rename_i f hf
    have hg : ∀ y w, (getUserData s.db f).2 y = some w →
        w.timeouts < cfg.timeOutsBeforeBan := by
      intro y w hw
      rcases getUserData_snd_some hw with hold | ⟨-, rfl⟩
      · exact hpre y w hold
      · exact htb
    have hu0 : (getUserData s.db f).1.timeouts < cfg.timeOutsBeforeBan := by
      rcases getUserData_fst_cases s.db f with h | h
      · exact hpre f _ h
      · rw [h]; exact htb
    simp only [] at hpost
    split at hpost
    · rcases strikeReject_db_some hpost with ⟨hx, hold⟩ | ⟨hx, hcase⟩
      · exact hg x u' hold
      · rcases hcase with ⟨rfl, -⟩ | ⟨rfl, -, hlt⟩
        · exact hu0
        · exact hlt
    · split at hpost
      · exact hg x u' hpost
      · split at hpost
        · rcases strikeReject_db_some hpost with ⟨hx, hold⟩ | ⟨hx, hcase⟩
          · exact hg x u' hold
          · rcases hcase with ⟨rfl, -⟩ | ⟨rfl, -, hlt⟩
            · exact hu0
            · exact hlt
        · split at hpost
          · exact hg x u' hpost
          · split at hpost
            · rcases strikeReject_db_some hpost with ⟨hx, hold⟩ | ⟨hx, hcase⟩
              · exact hg x u' hold
              · rcases hcase with ⟨rfl, -⟩ | ⟨rfl, -, hlt⟩
                · exact hu0
                · exact hlt
            · split at hpost
              · exact hg x u' hpost
              · rcases updateUserData_some hpost with ⟨rfl, rfl⟩ | ⟨hx, hold⟩
                · exact hu0
                · exact hg x u' hold
/-- After `getUserData`, the queried identity always has a row. -/
lemma getUserData_snd_self (db : Ledger) (f : String) :
    (getUserData db f).2 f = some (getUserData db f).1 := by
  cases hdb : db f with
  | some u0 => rw [getUserData_of_some hdb]; exact hdb
  | none => rw [getUserData_of_none hdb]; simp

/-- A row that already existed is returned unchanged by the lookup. -/
lemma getUserData_snd_some_of_mem {db : Ledger} {user x : String}
    {u u' : UserData} (hx : db x = some u)
    (h : (getUserData db user).2 x = some u') : u' = u := by
  cases hdb : db user with
  | some u0 =>
    rw [getUserData_of_some hdb] at h
    have h2 : db x = some u' := h
    rw [hx] at h2
    exact (Option.some.inj h2).symm
  | none =>
    rw [getUserData_of_none hdb] at h
    have h' : (if x = user then some UserData.init else db x) = some u' := h
    by_cases hxe : x = user
    · subst hxe
      rw [hx] at hdb
      cases hdb
    · rw [if_neg hxe, hx] at h'
      exact (Option.some.inj h').symm

/-- When the incremented strike count stays below the threshold,
`strikeReject` persists exactly the one-more-strike row. -/
lemma strikeReject_db_f_noTimeout {cfg : Config} {now : Nat} {f r : String}
    {u : UserData} {s : ProcState}
    (h : u.strikes + 1 < cfg.strikesBeforeTimeOut) :
    (strikeReject cfg now f r u s).db f =
      (s.db f).map (fun _ => { u with strikes := u.strikes + 1 }) := by
  have h1 : ¬ cfg.strikesBeforeTimeOut ≤ u.strikes + 1 := not_le.mpr h
  simp only [strikeReject, timeOutUser, banUser, logAction, h1, if_false,
    updateUserData, if_pos rfl]
  simp

/-- Claim C3: the admission checks run in the fixed order
type, size, airtime, and the first failing check decides the outcome: a
type-failed candidate is rejected as unsupported with no stat, no duration
probe and no change to any identity's quota counters; a size-quota failure
is decided before any duration probe happens; an airtime-quota failure
presupposes that the type and size checks passed. -/
theorem processUpload_check_order (cfg : Config) (inp : UploadInput)
    (s : ProcState) (f : String) (hf : inp.fingerprint = some f) :
    (checkFileType cfg inp.filePath = false →
      (processUpload cfg inp s).1 = Outcome.rejectedUnsupportedType ∧
      (processUpload cfg inp s).2.events.filter isProbeEvent =
        s.events.filter isProbeEvent ∧
      (∀ x u u', s.db x = some u → (processUpload cfg inp s).2.db x = some u' →
        u'.dailyUpload = u.dailyUpload ∧ u'.dailyAirtime = u.dailyAirtime)) ∧
    (∀ bytes, checkFileType cfg inp.filePath = true → inp.statSize = some bytes →
      cfg.maxUserUploadSize <
        (getUserData s.db f).1.dailyUpload + calculateFileSize bytes →
      (processUpload cfg inp s).1 = Outcome.rejectedSizeQuota ∧
      (processUpload cfg inp s).2.events.filter isDurationProbe =
        s.events.filter isDurationProbe) ∧
    (∀ bytes dur, checkFileType cfg inp.filePath = true →
      inp.statSize = some bytes →
      ¬ cfg.maxUserUploadSize <
        (getUserData s.db f).1.dailyUpload + calculateFileSize bytes →
      inp.probeDuration = some dur →
      cfg.maxUserAirtime < (getUserData s.db f).1.dailyAirtime + dur →
      (processUpload cfg inp s).1 = Outcome.rejectedAirtimeQuota) := by
  refine ⟨?_, ?_, ?_⟩
  · intro ht
    have h : processUpload cfg inp s =
        (Outcome.rejectedUnsupportedType,
          strikeReject cfg inp.now f ("Attempted to upload unsupported file type")
            (getUserData s.db f).1 { s with db := (getUserData s.db f).2 }) := by
      simp only [processUpload, hf, ht, if_pos]
    refine ⟨by rw [h], ?_, ?_⟩
    · rw [h]
      dsimp only
      obtain ⟨extra, hex, hev⟩ := strikeReject_events cfg inp.now f
        ("Attempted to upload unsupported file type") (getUserData s.db f).1
        { s with db := (getUserData s.db f).2 }
      rw [hev]
      dsimp only
      exact filter_append_logged (fun usr act => rfl) s.events extra hex
    · intro x u u' hpre hpost
      rw [h] at hpost
      dsimp only at hpost
      rcases strikeReject_db_some hpost with ⟨hx, hold⟩ | ⟨hx, hcase⟩
      · have : u' = u := getUserData_snd_some_of_mem hpre hold
        subst this
        exact ⟨rfl, rfl⟩
      · have hload : (getUserData s.db f).1 = u := by
          rw [hx] at hpre
          exact congrArg Prod.fst (getUserData_of_some hpre)
        rcases hcase with ⟨rfl, -⟩ | ⟨rfl, -, -⟩
        · rw [hload]; exact ⟨rfl, rfl⟩
        · rw [hload]; exact ⟨rfl, rfl⟩
  · intro bytes ht hsz hgt
    have h : processUpload cfg inp s =
        (Outcome.rejectedSizeQuota,
          strikeReject cfg inp.now f ("Exceeded daily upload size limit")
            (getUserData s.db f).1
            { s with db := (getUserData s.db f).2,
                     events := s.events ++ [Event.statFile inp.filePath] }) := by
      simp only [processUpload, hf, ht, hsz, hgt, if_pos]
      simp
    refine ⟨by rw [h], ?_⟩
    rw [h]
    dsimp only
    obtain ⟨extra, hex, hev⟩ := strikeReject_events cfg inp.now f
      ("Exceeded daily upload size limit") (getUserData s.db f).1
      { s with db := (getUserData s.db f).2,
               events := s.events ++ [Event.statFile inp.filePath] }
    rw [hev]
    dsimp only
    rw [filter_append_logged (fun usr act => rfl) _ extra hex,
      List.filter_append]
    simp [isDurationProbe]
  · intro bytes dur ht hsz hle hd hgt
    have h : (processUpload cfg inp s).1 = Outcome.rejectedAirtimeQuota := by
      simp only [processUpload, hf, ht, hsz, hle, hd, hgt, if_pos]
      simp
    exact h
/-- Claim C4, counterexample: a file rejected for unsupported type is
not deleted.  On a concrete unsupported-type upload the outcome is the
unsupported-type rejection, yet the complete event trace holds only the
audit-log entry — no file-removal action occurs. -/
theorem unsupported_type_not_deleted :
    (processUpload cfgW inp4 st4).1 = Outcome.rejectedUnsupportedType ∧
    (processUpload cfgW inp4 st4).2.events =
      [Event.logged ("fpW") ("Attempted to upload unsupported file type")] ∧
    Event.removed ("/inbound/evil.bin") ∉ (processUpload cfgW inp4 st4).2.events := by
  refine ⟨rfl, rfl, by decide⟩

/-- Claim C4, amended: on a rejection of any reason — unsupported type
included — the candidate file is left in place (not deleted, not moved),
and when the incremented strike count stays below the timeout threshold
the identity's `strikes` increments by exactly 1. -/
theorem rejection_leaves_file_in_place (cfg : Config) (inp : UploadInput)
    (s : ProcState) (f : String) (hf : inp.fingerprint = some f)
    (hout : (processUpload cfg inp s).1 = Outcome.rejectedUnsupportedType ∨
            (processUpload cfg inp s).1 = Outcome.rejectedSizeQuota ∨
            (processUpload cfg inp s).1 = Outcome.rejectedAirtimeQuota) :
    (processUpload cfg inp s).2.events.filter isFileEvent =
      s.events.filter isFileEvent ∧
    ((getUserData s.db f).1.strikes + 1 < cfg.strikesBeforeTimeOut →
      (processUpload cfg inp s).2.db f =
        some { (getUserData s.db f).1 with
                 strikes := (getUserData s.db f).1.strikes + 1 }) := by
  revert hout
  unfold processUpload
  split
  · rename_i heq
    rw [hf] at heq
    cases heq
  · rename_i f' heq
    rw [hf] at heq
    injection heq with heq'
    subst heq'
    dsimp only
    split
    · -- unsupported type
      intro hout
      constructor
      · obtain ⟨extra, hex, hev⟩ := strikeReject_events cfg inp.now f
          ("Attempted to upload unsupported file type") (getUserData s.db f).1
          { s with db := (getUserData s.db f).2 }
        dsimp only
        rw [hev]
        dsimp only
        exact filter_append_logged (fun usr act => rfl) s.events extra hex
      · intro hlt
        dsimp only
        rw [strikeReject_db_f_noTimeout hlt]
        dsimp only
        rw [getUserData_snd_self]
        rfl
    · split
      · -- stat error
        intro hout
        simp at hout
      · split
        · -- size quota
          intro hout
          constructor
          · obtain ⟨extra, hex, hev⟩ := strikeReject_events cfg inp.now f
              ("Exceeded daily upload size limit") (getUserData s.db f).1
              { s with db := (getUserData s.db f).2,
                       events := s.events ++ [Event.statFile inp.filePath] }
            dsimp only
            rw [hev]
            dsimp only
            rw [filter_append_logged (fun usr act => rfl) _ extra hex,
              List.filter_append]
            simp [isFileEvent]
          · intro hlt
            dsimp only
            rw [strikeReject_db_f_noTimeout hlt]
            dsimp only
            rw [getUserData_snd_self]
            rfl
        · split
          · -- probe error
            intro hout
            simp at hout
          · split
            · -- airtime quota
              intro hout
              constructor
              · obtain ⟨extra, hex, hev⟩ := strikeReject_events cfg inp.now f
                  ("Exceeded daily airtime limit") (getUserData s.db f).1
                  { s with db := (getUserData s.db f).2,
                           events := s.events ++ [Event.statFile inp.filePath]
                             ++ [Event.probedDuration inp.filePath] }
                dsimp only
                rw [hev]
                dsimp only
                rw [filter_append_logged (fun usr act => rfl) _ extra hex,
                  List.filter_append, List.filter_append]
                simp [isFileEvent]
              · intro hlt
                dsimp only
                rw [strikeReject_db_f_noTimeout hlt]
                dsimp only
                rw [getUserData_snd_self]
                rfl
            · split
              · -- move failed
                intro hout
                simp at hout
              · -- admitted
                intro hout
                simp at hout
/-- Claim C5: on a successful admission whose move into the storage
directory fails, the ledger update is not committed: the persisted ledger
is exactly what it was before the evaluation. -/
theorem move_failure_preserves_ledger (cfg : Config) (inp : UploadInput)
    (s : ProcState) (f : String) (u : UserData) (bytes dur : Nat)
    (hf : inp.fingerprint = some f) (hrow : s.db f = some u)
    (ht : checkFileType cfg inp.filePath = true)
    (hs : inp.statSize = some bytes)
    (hsz : ¬ cfg.maxUserUploadSize < u.dailyUpload + calculateFileSize bytes)
    (hd : inp.probeDuration = some dur)
    (hair : ¬ cfg.maxUserAirtime < u.dailyAirtime + dur)
    (hmv : inp.moveOk = false) :
    (processUpload cfg inp s).1 = Outcome.moveFailed ∧
    (processUpload cfg inp s).2.db = s.db := by
  have h : processUpload cfg inp s =
      (Outcome.moveFailed,
        { s with events := s.events ++ [Event.statFile inp.filePath]
            ++ [Event.probedDuration inp.filePath] }) := by
    simp only [processUpload, hf, getUserData_of_some hrow, ht, hs, hd, hmv]
    simp [hsz, hair]
  rw [h]
  exact ⟨rfl, rfl⟩

/-- Claim C10: the charged size is the byte size integer-divided by
`1024 * 1024`, so a file smaller than 1 MiB charges 0 whole megabytes:
for an identity whose `dailyUpload` is within the quota, such a file can
never trigger the size-quota rejection, and it adds nothing to
`dailyUpload` when admitted. -/
theorem small_file_never_size_rejected (cfg : Config) (inp : UploadInput)
    (s : ProcState) (f : String) (u : UserData) (bytes : Nat)
    (hf : inp.fingerprint = some f) (hrow : s.db f = some u)
    (hb : inp.statSize = some bytes) (hsmall : bytes < 1024 * 1024)
    (hq : u.dailyUpload ≤ cfg.maxUserUploadSize) :
    calculateFileSize bytes = 0 ∧
    (processUpload cfg inp s).1 ≠ Outcome.rejectedSizeQuota ∧
    (∀ u', (processUpload cfg inp s).2.db f = some u' →
      u'.dailyUpload = u.dailyUpload) := by
  have hz : calculateFileSize bytes = 0 := Nat.div_eq_of_lt hsmall
  have hns : ¬ cfg.maxUserUploadSize < u.dailyUpload := not_lt.mpr hq
  have key : ∀ o s', processUpload cfg inp s = (o, s') →
      o ≠ Outcome.rejectedSizeQuota ∧
      (∀ u', s'.db f = some u' → u'.dailyUpload = u.dailyUpload) := by
    intro o s' h
    simp only [processUpload, hf, getUserData_of_some hrow, hb, hz,
      Nat.add_zero, hns, if_false] at h
    split at h
    · -- unsupported type
      injection h with h1 h2
      subst h1
      subst h2
      refine ⟨by decide, ?_⟩
      intro u' hpost
      rcases strikeReject_db_some hpost with ⟨hx, -⟩ | ⟨-, hcase⟩
      · exact absurd rfl hx
      · rcases hcase with ⟨rfl, -⟩ | ⟨rfl, -, -⟩
        · rfl
        · rfl
    · split at h
      · -- probe error
        injection h with h1 h2
        subst h1
        subst h2
        refine ⟨by decide, ?_⟩
        intro u' hpost
        have hpost' : s.db f = some u' := hpost
        rw [hrow] at hpost'
        rw [← Option.some.inj hpost']
      · split at h
        · -- airtime quota
          injection h with h1 h2
          subst h1
          subst h2
          refine ⟨by decide, ?_⟩
          intro u' hpost
          rcases strikeReject_db_some hpost with ⟨hx, -⟩ | ⟨-, hcase⟩
          · exact absurd rfl hx
          · rcases hcase with ⟨rfl, -⟩ | ⟨rfl, -, -⟩
            · rfl
            · rfl
        · split at h
          · -- move failed
            injection h with h1 h2
            subst h1
            subst h2
            refine ⟨by decide, ?_⟩
            intro u' hpost
            have hpost' : s.db f = some u' := hpost
            rw [hrow] at hpost'
            rw [← Option.some.inj hpost']
          · -- admitted
            injection h with h1 h2
            subst h1
            subst h2
            refine ⟨by decide, ?_⟩
            intro u' hpost
            rcases updateUserData_some hpost with ⟨-, rfl⟩ | ⟨hx, -⟩
            · rfl
            · exact absurd rfl hx
  obtain ⟨h1, h2⟩ := key _ _ rfl
  exact ⟨hz, h1, h2⟩
/-- Witness for claim C1 at a concrete input. -/
theorem processUpload_strikes_invariant_witness :
    (⟨0, 1, 0, 0, 0⟩ : UserData).strikes < cfgW.strikesBeforeTimeOut :=
  processUpload_strikes_invariant cfgW inpW stW (by decide)
    (by
      intro x u h
      simp only [stW, dbW] at h
      split at h
      · cases Option.some.inj h; decide
      · cases h)
    ("fpW") ⟨0, 1, 0, 0, 0⟩ (by decide)

/-- Witness for claim C2 at a concrete input. -/
theorem processUpload_timeouts_invariant_witness :
    (⟨0, 1, 0, 0, 0⟩ : UserData).timeouts < cfgW.timeOutsBeforeBan :=
  processUpload_timeouts_invariant cfgW inpW stW (by decide)
    (by
      intro x u h
      simp only [stW, dbW] at h
      split at h
      · cases Option.some.inj h; decide
      · cases h)
    ("fpW") ⟨0, 1, 0, 0, 0⟩ (by decide)

/-- Witness for claim C3 at a concrete input. -/
theorem processUpload_check_order_witness :
    (processUpload cfgW inp4 st4).1 = Outcome.rejectedUnsupportedType ∧
    (processUpload cfgW inp4 st4).2.events.filter isProbeEvent =
      st4.events.filter isProbeEvent := by
  have h := processUpload_check_order cfgW inp4 st4 ("fpW") rfl
  exact ⟨(h.1 (by decide)).1, (h.1 (by decide)).2.1⟩

/-- Witness for claim C4 at a concrete input. -/
theorem rejection_leaves_file_in_place_witness :
    (processUpload cfgW inp4b st4).2.events.filter isFileEvent =
      st4.events.filter isFileEvent ∧
    (processUpload cfgW inp4b st4).2.db ("fpW") = some ⟨1, 0, 0, 0, 0⟩ := by
  have h := rejection_leaves_file_in_place cfgW inp4b st4 ("fpW") rfl
    (Or.inr (Or.inl (by decide)))
  exact ⟨h.1, h.2 (by decide)⟩

/-- Witness for claim C5 at a concrete input. -/
theorem move_failure_preserves_ledger_witness :
    (processUpload cfg8 inp5 st8).1 = Outcome.moveFailed ∧
    (processUpload cfg8 inp5 st8).2.db = st8.db :=
  move_failure_preserves_ledger cfg8 inp5 st8 ("fp8") ⟨0, 0, 0, 0, 0⟩
    (40 * 1024 * 1024) 120 rfl (by decide) (by decide) rfl (by decide) rfl
    (by decide) rfl

/-- Witness for claim C10 at a concrete input. -/
theorem small_file_never_size_rejected_witness :
    calculateFileSize 512 = 0 ∧
    (processUpload cfg8 inp10 st8).1 ≠ Outcome.rejectedSizeQuota ∧
    (⟨0, 0, 0, 3, 9⟩ : UserData).dailyUpload =
      (⟨0, 0, 0, 0, 0⟩ : UserData).dailyUpload := by
  have h := small_file_never_size_rejected cfg8 inp10 st8 ("fp8")
    ⟨0, 0, 0, 0, 0⟩ 512 rfl (by decide) rfl (by decide) (by decide)
  exact ⟨h.1, h.2.1, h.2.2 ⟨0, 0, 0, 3, 9⟩ (by decide)⟩

/-- Claim C9: a candidate whose credential key material cannot be read or
parsed into a fingerprint is dropped without charging any identity:
`processUpload` returns immediately and the entire state — ledger, audit
file, event trace — is exactly the input state; no row is created or
mutated and no strike is recorded. -/
theorem credential_unreadable_no_charge (cfg : Config) (path : String)
    (sz dur : Option Nat) (mv : Bool) (now : Nat) (s : ProcState) :
    processUpload cfg ⟨none, path, sz, dur, mv, now⟩ s =
      (Outcome.credentialUnreadable, s) := rfl

/-- Claim C7, code bug: `monitorSSHLogs` terminates at end-of-file.  It is
a single scanner pass over the lines present when the log is opened;
opened at end-of-file it returns at once with the state untouched, instead
of continuing to observe content appended later. -/
theorem monitorSSHLogs_returns_at_eof (cfg : Config) (env : Env)
    (sshKeyDir : String) (s : ProcState) :
    monitorSSHLogs cfg env sshKeyDir [] s = s := rfl

/-- Claim C6, code bug: the audit writer is not append-only.  Recording a
new entry over a file that holds a prior entry leaves the file holding
only the new entry — `ioutil.WriteFile` truncates — instead of the prior
content followed by the new entry. -/
theorem logAction_truncates_audit :
    logActionFile 1 ("idB") ("second entry") ("0 - idA: first entry\n") =
      "1 - idB: second entry\n" ∧
    logActionFile 1 ("idB") ("second entry") ("0 - idA: first entry\n") ≠
      "0 - idA: first entry\n" ++ formatLogEntry 1 ("idB") ("second entry") := by
  constructor
  · rfl
  · decide

/-- Claim C8, code bug: Scenario A does not end with `dailyAirtime = 120`
on this code.  An identity with all counters zero, under a 100 MB size
quota and a 1000 s airtime quota, uploads a 40 MiB accepted `.mp3` whose
duration `ffprobe` reports as 120 s; `calculateAudioDuration` turns that
report into 0 — its `Sscanf` of the `%f` verb into an `int` fails and the
discarded error leaves `duration` at its initial 0 — so the upload is
admitted with `dailyUpload = 40` but `dailyAirtime = 0`, not the 120 the
claim requires. -/
theorem scenario_a_airtime_zero :
    calculateAudioDuration (some ("120.000000")) = some 0 ∧
    (processUpload cfg8 inp8real st8).1 = Outcome.admitted ∧
    (processUpload cfg8 inp8real st8).2.db ("fp8") = some ⟨0, 0, 40, 0, 777⟩ := by
  refine ⟨rfl, rfl, rfl⟩

end Riverrun
